import Mathlib

/-!
Verification of the linearised UVLM state-space engine
(`sharpy/linear/src/linuvlm.py`).

The development shallowly embeds the parts of the `Dynamic` (and
`Frequency`) classes relevant to the claims: the state-space container
(`libss.ss`), the one-step time stepper `solve_step`, the scaling
operations `nondimss` and `dimss`, the size computation of `__init__`,
the block assembly of the state-transition matrix in `assemble_ss`, the
sparse wake-at-frequency operator `get_Cw_cpx`, and the guard and final
balancing stage of `balfreq`.

Matrices are embedded over the rationals (or generically, over a
field), so algebraic identities that the code documentation states "to
numerical tolerance" are established exactly; exact equality implies
every stated tolerance.  External numerical collaborators that are not
part of the sources (the scipy SVD, the complex exponential grid, the
Gramian quadrature loops) enter as explicit parameters, constrained by
hypotheses where a claim needs their defining property.
-/

namespace linuvlm

/-- Discrete-time state-space container, mirroring `libss.ss(A,B,C,D,dt)`:
a quadruple of matrices of mutually consistent dimensions plus the time
step. -/
structure SS (nx nu ny : ℕ) where
  A : Matrix (Fin nx) (Fin nx) ℚ
  B : Matrix (Fin nx) (Fin nu) ℚ
  C : Matrix (Fin ny) (Fin nx) ℚ
  D : Matrix (Fin ny) (Fin nu) ℚ
  dt : ℚ

/-- Scaling factors record: the three fundamental references plus the
derived quantities, as computed in `Dynamic.__init__` (linuvlm.py,
lines 486-500). -/
structure ScalingFacts where
  length : ℚ
  speed : ℚ
  density : ℚ
  time : ℚ
  circulation : ℚ
  dyn_pressure : ℚ
  force : ℚ

/-- Derivation of the scaling quantities from the three fundamental
references, following `Dynamic.__init__` (lines 496-499):
`time = length/speed`, `circulation = speed*length`,
`dyn_pressure = 0.5*density*speed**2`, `force = dyn_pressure*length**2`. -/
def mkScalingFacts (length speed density : ℚ) : ScalingFacts :=
  { length := length
    speed := speed
    density := density
    time := length / speed
    circulation := speed * length
    dyn_pressure := 0.5 * density * speed ^ 2
    force := (0.5 * density * speed ^ 2) * length ^ 2 }

/-- State of a `Dynamic` instance, keeping the fields that the claims
touch: the assembled state-space model `self.SS`, the
`remove_predictor` flag, the integration order, the retained original
input matrix `self.B_predictor` (None unless the predictor was
removed), and the scaling factors. -/
structure Dynamic (nx nu ny : ℕ) where
  SS : SS nx nu ny
  remove_predictor : Bool
  integr_order : ℕ
  B_predictor : Option (Matrix (Fin nx) (Fin nu) ℚ)
  ScalingFacts : ScalingFacts

/-- One time step, translated from `Dynamic.solve_step` (linuvlm.py,
lines 1291-1366).  A missing next-step input (`u_n1 = None`) is
replaced by (a copy of) the current input.  With the predictor removed
and `transform_state` requested, the state is converted on entry with
`h = x - B_predictor u` and back on exit; that path needs
`B_predictor` to be present (in Python, dereferencing `None` would
fail, hence the `Option` result). -/
def solve_step {nx nu ny : ℕ} (m : Dynamic nx nu ny) (x_n : Fin nx → ℚ)
    (u_n : Fin nu → ℚ) (u_n1 : Option (Fin nu → ℚ))
    (transform_state : Bool) :
    Option ((Fin nx → ℚ) × (Fin ny → ℚ)) :=
  let u1 : Fin nu → ℚ := match u_n1 with
    | none => u_n
    | some u => u
  if m.remove_predictor then
    if transform_state then
      match m.B_predictor with
      | none => none
      | some Bp =>
        let h_n := x_n - Bp.mulVec u_n
        let h_n1 := m.SS.A.mulVec h_n + m.SS.B.mulVec u_n
        let y_n1 := m.SS.C.mulVec h_n1 + m.SS.D.mulVec u1
        some (h_n1 + Bp.mulVec u1, y_n1)
    else
      let h_n1 := m.SS.A.mulVec x_n + m.SS.B.mulVec u_n
      let y_n1 := m.SS.C.mulVec h_n1 + m.SS.D.mulVec u1
      some (h_n1, y_n1)
  else
    let x_n1 := m.SS.A.mulVec x_n + m.SS.B.mulVec u1
    let y_n1 := m.SS.C.mulVec x_n1 + m.SS.D.mulVec u1
    some (x_n1, y_n1)

/-- Modelled from the spec: `libss.SSconv`, called by
`Dynamic.assemble_ss` (line 766), is not among the sources.  Following
spec section 4.2 step 6 / section 4.4 and the `assemble_ss`
docstring (lines 576-586), the predictor-removed realisation keeps
`A` and `C` and replaces `B` by `A B` and `D` by `C B + D`. -/
def SSconv {nx nu ny : ℕ} (ss : SS nx nu ny) : SS nx nu ny :=
  { A := ss.A
    B := ss.A * ss.B
    C := ss.C
    D := ss.C * ss.B + ss.D
    dt := ss.dt }

/-- Model produced by `assemble_ss` with `remove_predictor = False`
(linuvlm.py, lines 776-779): the direct-form matrices are stored
unchanged and `B_predictor` stays `None`. -/
def directModel {nx nu ny : ℕ} (ss : SS nx nu ny) : Dynamic nx nu ny :=
  { SS := ss
    remove_predictor := false
    integr_order := 2
    B_predictor := none
    ScalingFacts := mkScalingFacts 1 1 1 }

/-- Model produced by `assemble_ss` with `remove_predictor = True`
(linuvlm.py, lines 765-775): the state-space is the `SSconv` transform
and the original input matrix is retained as `B_predictor`. -/
def predModel {nx nu ny : ℕ} (ss : SS nx nu ny) : Dynamic nx nu ny :=
  { SS := SSconv ss
    remove_predictor := true
    integr_order := 2
    B_predictor := some ss.B
    ScalingFacts := mkScalingFacts 1 1 1 }

/-- Drive a model with `solve_step` through an input sequence: from
state `x` and current input `ucur`, each step consumes the next input
of the list (passed as the explicit `u_n1` argument, with
`transform_state = False`) and records the produced output. -/
def runSteps {nx nu ny : ℕ} (m : Dynamic nx nu ny) :
    (Fin nx → ℚ) → (Fin nu → ℚ) → List (Fin nu → ℚ) → List (Fin ny → ℚ)
  | _, _, [] => []
  | x, ucur, unext :: rest =>
    match solve_step m x ucur (some unext) false with
    | none => []
    | some (x1, y1) => y1 :: runSteps m x1 unext rest

/-- Non-dimensionalisation, translated from `Dynamic.nondimss`
(linuvlm.py, lines 508-526): the first `3 Kzeta` input columns of `B`
(vertex positions) are scaled by `length/circulation`, the remaining
columns by `speed/circulation`; `C` by `circulation/force`; the first
`3 Kzeta` columns of `D` by `length/force`, the rest by `speed/force`;
`dt` is divided by the time scale.  `A` is not touched. -/
def nondimss {nx Kzeta : ℕ} (m : Dynamic nx (9 * Kzeta) (3 * Kzeta)) :
    Dynamic nx (9 * Kzeta) (3 * Kzeta) :=
  { m with SS :=
    { A := m.SS.A
      B := fun i j =>
        if (j : ℕ) < 3 * Kzeta then
          m.SS.B i j * (m.ScalingFacts.length / m.ScalingFacts.circulation)
        else
          m.SS.B i j * (m.ScalingFacts.speed / m.ScalingFacts.circulation)
      C := fun i j => m.SS.C i j * (m.ScalingFacts.circulation / m.ScalingFacts.force)
      D := fun i j =>
        if (j : ℕ) < 3 * Kzeta then
          m.SS.D i j * (m.ScalingFacts.length / m.ScalingFacts.force)
        else
          m.SS.D i j * (m.ScalingFacts.speed / m.ScalingFacts.force)
      dt := m.SS.dt / m.ScalingFacts.time } }

/-- Re-dimensionalisation, translated from `Dynamic.dimss` (linuvlm.py,
lines 529-544): divides where `nondimss` multiplied and multiplies the
time step back. -/
def dimss {nx Kzeta : ℕ} (m : Dynamic nx (9 * Kzeta) (3 * Kzeta)) :
    Dynamic nx (9 * Kzeta) (3 * Kzeta) :=
  { m with SS :=
    { A := m.SS.A
      B := fun i j =>
        if (j : ℕ) < 3 * Kzeta then
          m.SS.B i j / (m.ScalingFacts.length / m.ScalingFacts.circulation)
        else
          m.SS.B i j / (m.ScalingFacts.speed / m.ScalingFacts.circulation)
      C := fun i j => m.SS.C i j / (m.ScalingFacts.circulation / m.ScalingFacts.force)
      D := fun i j =>
        if (j : ℕ) < 3 * Kzeta then
          m.SS.D i j / (m.ScalingFacts.length / m.ScalingFacts.force)
        else
          m.SS.D i j / (m.ScalingFacts.speed / m.ScalingFacts.force)
      dt := m.SS.dt * m.ScalingFacts.time } }

/-- State, input and output dimensions as computed in
`Dynamic.__init__` (linuvlm.py, lines 466-477): `Nx = 2 K + K_star`
for first-order integration, `Nx = 3 K + K_star` for second order, any
other order raises; `Ny = 3 Kzeta` and `Nu = 3 Ny`. -/
def dynInitSizes (K K_star Kzeta integr_order : ℕ) :
    Except String (ℕ × ℕ × ℕ) :=
  if integr_order = 1 then
    Except.ok (2 * K + K_star, 3 * (3 * Kzeta), 3 * Kzeta)
  else if integr_order = 2 then
    Except.ok (3 * K + K_star, 3 * (3 * Kzeta), 3 * Kzeta)
  else
    Except.error "Only integration orders 1 and 2 are supported"

/-- Shapes of the four matrices allocated by `Dynamic.assemble_ss`
(linuvlm.py, lines 645-647, 698-700, 738, 745): `A` is `(Nx, Nx)`, `B`
is `(Nx, Nu)`, `C` is `(Ny, Nx)`, `D` is `(Ny, Nu)`, with the sizes
stored by `__init__`. -/
def assembleShapes (K K_star Kzeta integr_order : ℕ) :
    Except String ((ℕ × ℕ) × (ℕ × ℕ) × (ℕ × ℕ) × (ℕ × ℕ)) :=
  (dynInitSizes K K_star Kzeta integr_order).map
    (fun s => ((s.1, s.1), (s.1, s.2.1), (s.2.2, s.1), (s.2.2, s.2.1)))

/-- Row `i` of the product of an informally sized matrix (given as a
total function on natural indices) with a vector, the sum running over
the `n` columns the matrix actually has. -/
def mulNatVec (M : ℕ → ℕ → ℚ) (n : ℕ) (v : ℕ → ℚ) : ℕ → ℚ :=
  fun i => ∑ j in Finset.range n, M i j * v j

/-- State-transition matrix assembly, translated from
`Dynamic.assemble_ss` (linuvlm.py, lines 642-669).  The four input
blocks are the quantities the assembly solved for beforehand: the
bound-to-bound and bound-to-wake couplings `AinvAWCgamma` (`K times K`)
and `AinvAWCgammaW` (`K times K_star`), already carrying their minus
sign, and the wake-propagation blocks `Cgamma` (`K_star times K`) and
`CgammaW` (`K_star times K_star`).  Slice assignments into the zero
matrix become region tests on the indices; `b0, bm1, bp1 = -2., 0.5,
1.5` are inlined at their use sites. -/
def assembleA (K K_star integr_order : ℕ)
    (AinvAWCgamma AinvAWCgammaW Cgamma CgammaW : ℕ → ℕ → ℚ) :
    ℕ → ℕ → ℚ := fun i j =>
  if i < K then
    if j < K then AinvAWCgamma i j
    else if j < K + K_star then AinvAWCgammaW i (j - K)
    else 0
  else if i < K + K_star then
    if j < K then Cgamma (i - K) j
    else if j < K + K_star then CgammaW (i - K) (j - K)
    else 0
  else if i < 2 * K + K_star then
    if integr_order = 1 then
      if j < K then
        AinvAWCgamma (i - (K + K_star)) j - (if j = i - (K + K_star) then 1 else 0)
      else if j < K + K_star then AinvAWCgammaW (i - (K + K_star)) (j - K)
      else 0
    else if integr_order = 2 then
      if j < K then
        1.5 * AinvAWCgamma (i - (K + K_star)) j +
          (if j = i - (K + K_star) then -2 else 0)
      else if j < K + K_star then 1.5 * AinvAWCgammaW (i - (K + K_star)) (j - K)
      else if j < 2 * K + K_star then 0
      else if j < 3 * K + K_star then
        (if j - (2 * K + K_star) = i - (K + K_star) then 0.5 else 0)
      else 0
    else 0
  else if i < 3 * K + K_star then
    if integr_order = 2 then
      (if j = i - (2 * K + K_star) ∧ j < K then 1 else 0)
    else 0
  else 0

/-- Dimensions of one aerodynamic surface: `M times N` bound panels and
`Mstar times N` wake panels (`MS.dimensions[ss]` and
`MS.dimensions_star[ss]`). -/
structure Surf where
  M : ℕ
  N : ℕ
  Mstar : ℕ

/-- Contribution of a single surface to the sparse wake-at-frequency
operator, translated from the loop body of `Dynamic.get_Cw_cpx`
(linuvlm.py, lines 911-921): for each chordwise wake row `mm`, the `N`
coordinates pair wake row `K0totstar + mm N + t` with trailing-edge
bound column `K0tot + N (M - 1) + t` and carry the value
`zval ** (-mm - 1)`.  The matrix entry at `(i, j)` is the sum of the
coordinate values placed there (`csc_matrix` sums duplicates). -/
def surfCwEntry {F : Type} [Field F] (z : F) (s : Surf)
    (K0tot K0totstar i j : ℕ) : F :=
  ∑ mm in Finset.range s.Mstar, ∑ t in Finset.range s.N,
    if i = K0totstar + (mm * s.N + t) ∧ j = K0tot + (s.N * (s.M - 1) + t) then
      z ^ (-(mm : ℤ) - 1)
    else 0

/-- Entry `(i, j)` of the `K_star times K` matrix built by
`Dynamic.get_Cw_cpx` (linuvlm.py, lines 887-923): the surfaces are
traversed with running offsets `K0tot` (bound) and `K0totstar` (wake),
each advancing by `MS.KK[ss] = M N` and `MS.KK_star[ss] = Mstar N`. -/
def get_Cw_cpx_entry {F : Type} [Field F] (z : F) :
    List Surf → ℕ → ℕ → ℕ → ℕ → F
  | [], _, _, _, _ => 0
  | s :: rest, K0tot, K0totstar, i, j =>
    surfCwEntry z s K0tot K0totstar i j +
      get_Cw_cpx_entry z rest (K0tot + s.M * s.N) (K0totstar + s.Mstar * s.N) i j

/-- Formalisation of the claim wording for the wake-at-frequency
operator: walking the surfaces, a row `i` falling in the current
surface wake block is nonzero only at the single trailing-edge bound
column of the same surface whose span position matches `i mod N`,
where it holds `z` to the power `-(mm + 1)` for the chordwise wake row
`mm = i div N`; rows and columns of different surfaces never couple. -/
def cwClaimEntry {F : Type} [Field F] (z : F) :
    List Surf → ℕ → ℕ → F
  | [], _, _ => 0
  | s :: rest, i, j =>
    if i < s.Mstar * s.N then
      if s.N * (s.M - 1) ≤ j ∧ j < s.N * s.M ∧ j - s.N * (s.M - 1) = i % s.N then
        z ^ (-((i / s.N : ℕ) : ℤ) - 1)
      else 0
    else if j < s.M * s.N then 0
    else cwClaimEntry z rest (i - s.Mstar * s.N) (j - s.M * s.N)

/-- Positions at which the claim asserts a nonzero wake-at-frequency
entry: row in a surface wake block, column the matching trailing-edge
bound column of the same surface. -/
def cwClaimPos : List Surf → ℕ → ℕ → Bool
  | [], _, _ => false
  | s :: rest, i, j =>
    if i < s.Mstar * s.N then
      decide (s.N * (s.M - 1) ≤ j ∧ j < s.N * s.M ∧
        j - s.N * (s.M - 1) = i % s.N)
    else if j < s.M * s.N then false
    else cwClaimPos rest (i - s.Mstar * s.N) (j - s.M * s.N)

/-- Errors raised by `Dynamic.balfreq`; all are `NameError` in the
Python source.  `autoWeights` is the missing-quadrature-weights guard
(line 958), `removePredictor` the predictor-removed guard (line 960),
`unboundName` the unbound `bp0` in the first-order controllability
branch (line 1019), `badOrder` the invalid-integration-order branch
(line 1026). -/
inductive BalfreqError where
  | autoWeights
  | removePredictor
  | unboundName
  | badOrder
deriving DecidableEq

/-- Integration coefficients bound by `Dynamic.balfreq` (linuvlm.py,
lines 986-989), as the quadruple `(b0, bm1, bp1, bp0)`; `none` records
a Python name the branch leaves unbound.  For order 2 all of `b0, bm1,
bp1` are assigned; otherwise only `b0` and `bp1` are.  `bp0` is never
assigned anywhere in the function. -/
def balfreqCoeffs (integr_order : ℕ) :
    Option ℚ × Option ℚ × Option ℚ × Option ℚ :=
  if integr_order = 2 then (some (-2), some 0.5, some 1.5, none)
  else (some (-1), none, some 1, none)

/-- Controllability-branch factor `dfact` of the `balfreq` frequency
loop (linuvlm.py, lines 1018-1026): order 1 evaluates
`bp1 + bp0 / zval` (a `NameError`, since `bp0` is unbound), order 2
evaluates `bp1 + b0 / zval + bm1 / zval ** 2`, anything else raises. -/
def dfactCtrl (integr_order : ℕ) (zval : ℚ) : Except BalfreqError ℚ :=
  let c := balfreqCoeffs integr_order
  if integr_order = 1 then
    match c.2.2.1, c.2.2.2 with
    | some vp1, some vp0 => Except.ok (vp1 + vp0 / zval)
    | _, _ => Except.error BalfreqError.unboundName
  else if integr_order = 2 then
    match c.2.2.1, c.1, c.2.1 with
    | some vp1, some v0, some vm1 =>
      Except.ok (vp1 + v0 / zval + vm1 / zval ^ 2)
    | _, _, _ => Except.error BalfreqError.unboundName
  else Except.error BalfreqError.badOrder

/-- Factorisation data returned by the external `scipy.linalg.svd`
call in `balfreq` (line 1086, `full_matrices=False`), plus the vector
`sinv = s ** (-0.5)` (line 1087), which is irrational in general and
therefore supplied as data; the theorems constrain it by
`s l * sinv l * sinv l = 1`. -/
structure SVDFactors (p q r : ℕ) where
  U : Matrix (Fin p) (Fin r) ℚ
  s : Fin r → ℚ
  Vh : Matrix (Fin r) (Fin q) ℚ
  sinv : Fin r → ℚ

/-- Quantities stored by a successful `balfreq` call: the balancing
transform `T`, its left inverse `Ti`, the balanced model `SSb` and the
singular values `gv`. -/
structure BalfreqResult (nu ny ns r : ℕ) where
  T : Matrix (Fin ns) (Fin r) ℚ
  Ti : Matrix (Fin r) (Fin ns) ℚ
  SSb : SS r nu ny
  gv : Fin r → ℚ

/-- Final balancing stage of `Dynamic.balfreq` (linuvlm.py, lines
1082-1100): with the Gramian factors `Zc`, `Zo` produced by the
frequency loop and the SVD of `M = Zo^T Zc`, build
`T = Zc (Vh^T sinv)` and `Ti = (U sinv)^T Zo^T` (columnwise scaling by
`sinv` written as multiplication by `diagonal sinv`), and the balanced
model `A_b = Ti (A T)`, `B_b = Ti B`, `C_b = C T` with the original
`D` and `dt`; `gv` receives the whole singular-value vector `s`. -/
def balfreqFinal {ns nu ny p q r : ℕ} (ss : SS ns nu ny)
    (Zc : Matrix (Fin ns) (Fin q) ℚ) (Zo : Matrix (Fin ns) (Fin p) ℚ)
    (svd : SVDFactors p q r) : BalfreqResult nu ny ns r :=
  let T := Zc * (svd.Vh.transpose * Matrix.diagonal svd.sinv)
  let Ti := (svd.U * Matrix.diagonal svd.sinv).transpose * Zo.transpose
  { T := T
    Ti := Ti
    SSb := { A := Ti * (ss.A * T)
             B := Ti * ss.B
             C := ss.C * T
             D := ss.D
             dt := ss.dt }
    gv := svd.s }

/-- Guarded `Dynamic.balfreq` (linuvlm.py, lines 926-1100).  The
guards come first, in source order: missing quadrature weights raise,
then a predictor-removed model raises (both before any computation).
The frequency loop then evaluates the controllability factor `dfact`
for every merged frequency point (`kvdt = concat(kv_low, kv_high) *
dt`); `zOf` abstracts the complex-exponential map `z = cos(kvdt) + i
sin(kvdt)`, and the Gramian-factor accumulation into `Zc`, `Zo` -
numerical work not decided by any claim - enters as the parameters
consumed by `balfreqFinal`, together with the external SVD.  A success
returns the stored results beside the (unmodified) model. -/
def balfreq {ns nu ny p q r : ℕ} (m : Dynamic ns nu ny)
    (kv_low kv_high : List ℚ) (wv_low wv_high : Option (List ℚ))
    (zOf : ℚ → ℚ)
    (Zc : Matrix (Fin ns) (Fin q) ℚ) (Zo : Matrix (Fin ns) (Fin p) ℚ)
    (svd : SVDFactors p q r) :
    Except BalfreqError (BalfreqResult nu ny ns r × Dynamic ns nu ny) :=
  if wv_low.isNone || wv_high.isNone then Except.error BalfreqError.autoWeights
  else if m.remove_predictor then Except.error BalfreqError.removePredictor
  else do
    let kvdt := (kv_low ++ kv_high).map (fun k => k * m.SS.dt)
    let _ ← kvdt.mapM (fun kd => dfactCtrl m.integr_order (zOf kd))
    pure (balfreqFinal m.SS Zc Zo svd, m)

/-- Model state observed by the caller after a `balfreq` call: the
updated model on success, the unchanged receiver when the call raised
(a Python exception unwinds before any attribute assignment). -/
def balfreqModelAfter {ns nu ny p q r : ℕ} (m : Dynamic ns nu ny)
    (kv_low kv_high : List ℚ) (wv_low wv_high : Option (List ℚ))
    (zOf : ℚ → ℚ)
    (Zc : Matrix (Fin ns) (Fin q) ℚ) (Zo : Matrix (Fin ns) (Fin p) ℚ)
    (svd : SVDFactors p q r) : Dynamic ns nu ny :=
  match balfreq m kv_low kv_high wv_low wv_high zOf Zc Zo svd with
  | Except.ok (_, m2) => m2
  | Except.error _ => m

/-- Concrete one-panel state-space sample used by the witnesses. -/
def sampleSS1 : SS 1 (9 * 1) (3 * 1) :=
  { A := fun _ _ => 2
    B := fun _ j => (j : ℚ) + 1
    C := fun i _ => (i : ℚ) + 1
    D := fun i j => (i : ℚ) + (j : ℚ)
    dt := 3 }

/-- Concrete direct-form sample model used by the witnesses. -/
def sampleDyn : Dynamic 1 (9 * 1) (3 * 1) :=
  { SS := sampleSS1
    remove_predictor := false
    integr_order := 2
    B_predictor := none
    ScalingFacts := mkScalingFacts 2 3 5 }

/-- Concrete predictor-removed sample model used by the witnesses. -/
def sampleDynPred : Dynamic 1 (9 * 1) (3 * 1) :=
  { sampleDyn with
    remove_predictor := true
    B_predictor := some sampleSS1.B }

/-- Concrete first-order sample model used by the witnesses. -/
def sampleDynO1 : Dynamic 1 (9 * 1) (3 * 1) :=
  { sampleDyn with integr_order := 1 }

/-- Trivial one-by-one SVD sample used by the witnesses. -/
def sampleSVD : SVDFactors 1 1 1 :=
  { U := 1
    s := fun _ => 1
    Vh := 1
    sinv := fun _ => 1 }

end linuvlm

namespace linuvlm

/-- C8: in `solve_step`, an omitted next-step input (`u_n1 = None`) is
replaced by a copy of the current input and the step completes
normally, returning exactly what an explicit `u_n1 = u_n` returns; on
a well-formed model (a predictor-removed model carries its
`B_predictor`) the defaulted call is never an error. -/
theorem solve_step_default_input {nx nu ny : ℕ} (m : Dynamic nx nu ny)
    (x : Fin nx → ℚ) (u : Fin nu → ℚ) (ts : Bool)
    (hwf : m.remove_predictor = true → m.B_predictor.isSome) :
    solve_step m x u none ts = solve_step m x u (some u) ts ∧
      (solve_step m x u none ts).isSome := by
  refine ⟨rfl, ?_⟩
  cases hrp : m.remove_predictor with
  | false => simp [solve_step, hrp]
  | true =>
    cases hts : ts with
    | false => simp [solve_step, hrp]
    | true =>
      cases hbp : m.B_predictor with
      | none => exact absurd (hwf hrp) (by simp [hbp])
      | some Bp => simp [solve_step, hrp, hbp]

/-- Witness for C8 at a concrete model, state and input. -/
theorem solve_step_default_input_witness :
    solve_step sampleDyn (fun _ => 1) (fun _ => 2) none true =
        solve_step sampleDyn (fun _ => 1) (fun _ => 2) (some (fun _ => 2)) true ∧
      (solve_step sampleDyn (fun _ => 1) (fun _ => 2) none true).isSome :=
  solve_step_default_input sampleDyn (fun _ => 1) (fun _ => 2) true
    (by intro h; exact absurd h (by decide))

/-- C10: `nondimss` and `dimss` touch only `B`, `C`, `D` and `dt`; the
state-transition matrix `A`, the stored `B_predictor`, and the other
model fields are unchanged by both, so after `nondimss` the retained
`B_predictor` keeps its original dimensional units. -/
theorem scaling_frame {nx Kzeta : ℕ} (m : Dynamic nx (9 * Kzeta) (3 * Kzeta)) :
    (nondimss m).SS.A = m.SS.A ∧ (nondimss m).B_predictor = m.B_predictor ∧
    (dimss m).SS.A = m.SS.A ∧ (dimss m).B_predictor = m.B_predictor ∧
    (nondimss m).remove_predictor = m.remove_predictor ∧
    (dimss m).remove_predictor = m.remove_predictor ∧
    (nondimss m).ScalingFacts = m.ScalingFacts ∧
    (dimss m).ScalingFacts = m.ScalingFacts :=
  ⟨rfl, rfl, rfl, rfl, rfl, rfl, rfl, rfl⟩

/-- C3: a first-order model has `Nx = 2 K + K_star` states, a
second-order model `Nx = 3 K + K_star`; both have `Nu = 9 Kzeta`
inputs and `Ny = 3 Kzeta` outputs, and `assemble_ss` allocates `A` as
`Nx times Nx`, `B` as `Nx times Nu`, `C` as `Ny times Nx` and `D` as
`Ny times Nu`, mutually consistent. -/
theorem assembled_dimensions (K K_star Kzeta : ℕ) :
    dynInitSizes K K_star Kzeta 1 =
        Except.ok (2 * K + K_star, 9 * Kzeta, 3 * Kzeta) ∧
    dynInitSizes K K_star Kzeta 2 =
        Except.ok (3 * K + K_star, 9 * Kzeta, 3 * Kzeta) ∧
    assembleShapes K K_star Kzeta 1 =
        Except.ok ((2 * K + K_star, 2 * K + K_star),
          (2 * K + K_star, 9 * Kzeta),
          (3 * Kzeta, 2 * K + K_star), (3 * Kzeta, 9 * Kzeta)) ∧
    assembleShapes K K_star Kzeta 2 =
        Except.ok ((3 * K + K_star, 3 * K + K_star),
          (3 * K + K_star, 9 * Kzeta),
          (3 * Kzeta, 3 * K + K_star), (3 * Kzeta, 9 * Kzeta)) := by
  refine ⟨?_, ?_, ?_, ?_⟩ <;>
    simp [dynInitSizes, assembleShapes, Except.map, Prod.ext_iff] <;> omega

/-- C7: requesting `balfreq` on a predictor-removed model (with the
quadrature weights supplied, so the earlier weights guard passes)
raises the configuration error immediately, before any Gramian
computation, and the model observed after the call is unchanged. -/
theorem balfreq_predictor_guard {ns nu ny p q r : ℕ} (m : Dynamic ns nu ny)
    (kv_low kv_high wl wh : List ℚ) (zOf : ℚ → ℚ)
    (Zc : Matrix (Fin ns) (Fin q) ℚ) (Zo : Matrix (Fin ns) (Fin p) ℚ)
    (svd : SVDFactors p q r)
    (hrp : m.remove_predictor = true) :
    balfreq m kv_low kv_high (some wl) (some wh) zOf Zc Zo svd =
        Except.error BalfreqError.removePredictor ∧
      balfreqModelAfter m kv_low kv_high (some wl) (some wh) zOf Zc Zo svd = m := by
  have h1 : balfreq m kv_low kv_high (some wl) (some wh) zOf Zc Zo svd =
      Except.error BalfreqError.removePredictor := by
    simp [balfreq, hrp]
  exact ⟨h1, by simp [balfreqModelAfter, h1]⟩

/-- C1: for every assembled model, initial state `x0` and input
sequence `u0, ..., un`, the direct-form stepper (`remove_predictor =
False`) and the predictor-removed stepper started from the transformed
state `h0 = x0 - B_predictor u0` and advanced with `solve_step`
produce identical output sequences `y1, ..., yn`.  Over the rationals
the agreement is exact, hence within any tolerance, in particular
`1e-12`. -/
theorem stepper_equivalence {nx nu ny : ℕ} (ss : SS nx nu ny) :
    ∀ (us : List (Fin nu → ℚ)) (x0 : Fin nx → ℚ) (u0 : Fin nu → ℚ),
      runSteps (directModel ss) x0 u0 us =
        runSteps (predModel ss) (x0 - ss.B.mulVec u0) u0 us := by
  have hdir : ∀ (x u0 u1 : _),
      solve_step (directModel ss) x u0 (some u1) false =
        some (ss.A.mulVec x + ss.B.mulVec u1,
          ss.C.mulVec (ss.A.mulVec x + ss.B.mulVec u1) + ss.D.mulVec u1) :=
    fun _ _ _ => rfl
  have hpred : ∀ (h u0 u1 : _),
      solve_step (predModel ss) h u0 (some u1) false =
        some (ss.A.mulVec h + (ss.A * ss.B).mulVec u0,
          ss.C.mulVec (ss.A.mulVec h + (ss.A * ss.B).mulVec u0) +
            (ss.C * ss.B + ss.D).mulVec u1) :=
    fun _ _ _ => rfl
  intro us
  induction us with
  | nil => intro x0 u0; rfl
  | cons u1 rest ih =>
    intro x0 u0
    have hstate : ss.A.mulVec (x0 - ss.B.mulVec u0) +
        (ss.A * ss.B).mulVec u0 = ss.A.mulVec x0 := by
      rw [← Matrix.mulVec_mulVec, Matrix.mulVec_sub]
      abel
    simp only [runSteps, hdir, hpred, hstate]
    congr 1
    · rw [Matrix.mulVec_add, Matrix.add_mulVec, ← Matrix.mulVec_mulVec]
      abel
    · rw [ih]
      congr 1
      abel

/-- C2: with nonzero fundamental scaling factors, `nondimss` followed
by `dimss` restores `B`, `C`, `D` and `dt`.  Over the rationals the
round trip is exact (each entry is multiplied and then divided by the
same nonzero factor), hence within the stated `1e-10` relative
tolerance. -/
theorem scaling_roundtrip {nx Kzeta : ℕ}
    (m : Dynamic nx (9 * Kzeta) (3 * Kzeta)) (L V R : ℚ)
    (hL : L ≠ 0) (hV : V ≠ 0) (hR : R ≠ 0)
    (hfacts : m.ScalingFacts = mkScalingFacts L V R) :
    (dimss (nondimss m)).SS.B = m.SS.B ∧
    (dimss (nondimss m)).SS.C = m.SS.C ∧
    (dimss (nondimss m)).SS.D = m.SS.D ∧
    (dimss (nondimss m)).SS.dt = m.SS.dt := by
  have hcirc : V * L ≠ 0 := mul_ne_zero hV hL
  have hforce : (0.5 * R * V ^ 2) * L ^ 2 ≠ 0 :=
    mul_ne_zero (mul_ne_zero (mul_ne_zero (by norm_num) hR) (pow_ne_zero 2 hV))
      (pow_ne_zero 2 hL)
  have hBfac1 : L / (V * L) ≠ 0 := div_ne_zero hL hcirc
  have hBfac2 : V / (V * L) ≠ 0 := div_ne_zero hV hcirc
  have hCfac : (V * L) / ((0.5 * R * V ^ 2) * L ^ 2) ≠ 0 := div_ne_zero hcirc hforce
  have hDfac1 : L / ((0.5 * R * V ^ 2) * L ^ 2) ≠ 0 := div_ne_zero hL hforce
  have hDfac2 : V / ((0.5 * R * V ^ 2) * L ^ 2) ≠ 0 := div_ne_zero hV hforce
  have htime : L / V ≠ 0 := div_ne_zero hL hV
  refine ⟨?_, ?_, ?_, ?_⟩
  · funext i j
    by_cases hj : (j : ℕ) < 3 * Kzeta <;>
      simp only [dimss, nondimss, hfacts, mkScalingFacts, hj, if_true, if_false]
    · exact mul_div_cancel_right₀ _ hBfac1
    · exact mul_div_cancel_right₀ _ hBfac2
  · funext i j
    simp only [dimss, nondimss, hfacts, mkScalingFacts]
    exact mul_div_cancel_right₀ _ hCfac
  · funext i j
    by_cases hj : (j : ℕ) < 3 * Kzeta <;>
      simp only [dimss, nondimss, hfacts, mkScalingFacts, hj, if_true, if_false]
    · exact mul_div_cancel_right₀ _ hDfac1
    · exact mul_div_cancel_right₀ _ hDfac2
  · simp only [dimss, nondimss, hfacts, mkScalingFacts]
    exact div_mul_cancel₀ _ htime

/-- Witness for C2 at a concrete model with scaling factors 2, 3, 5. -/
theorem scaling_roundtrip_witness :
    (dimss (nondimss sampleDyn)).SS.B = sampleDyn.SS.B ∧
    (dimss (nondimss sampleDyn)).SS.C = sampleDyn.SS.C ∧
    (dimss (nondimss sampleDyn)).SS.D = sampleDyn.SS.D ∧
    (dimss (nondimss sampleDyn)).SS.dt = sampleDyn.SS.dt :=
  scaling_roundtrip sampleDyn 2 3 5 (by norm_num) (by norm_num) (by norm_num) rfl

/-- Helper: entries of the order-2 circulation-derivative block over
the bound-circulation columns. -/
theorem assembleA2_delta_gamma (K K_star : ℕ)
    (Ag AgW Cg CgW : ℕ → ℕ → ℚ) (r j : ℕ) (hr : r < K) (hj : j < K) :
    assembleA K K_star 2 Ag AgW Cg CgW (K + K_star + r) j =
      1.5 * Ag r j + (if j = r then -2 else 0) := by
  have h1 : ¬(K + K_star + r < K) := by omega
  have h2 : ¬(K + K_star + r < K + K_star) := by omega
  have h3 : K + K_star + r < 2 * K + K_star := by omega
  simp [assembleA, h1, h2, h3, hj, Nat.add_sub_cancel_left]

/-- Helper: entries of the order-2 circulation-derivative block over
the wake-circulation columns. -/
theorem assembleA2_delta_wake (K K_star : ℕ)
    (Ag AgW Cg CgW : ℕ → ℕ → ℚ) (r j : ℕ) (hr : r < K) (hj : j < K_star) :
    assembleA K K_star 2 Ag AgW Cg CgW (K + K_star + r) (K + j) =
      1.5 * AgW r j := by
  have h1 : ¬(K + K_star + r < K) := by omega
  have h2 : ¬(K + K_star + r < K + K_star) := by omega
  have h3 : K + K_star + r < 2 * K + K_star := by omega
  have h4 : ¬(K + j < K) := by omega
  have h5 : K + j < K + K_star := by omega
  simp [assembleA, h1, h2, h3, h4, h5, Nat.add_sub_cancel_left]

/-- Helper: entries of the order-2 circulation-derivative block over
the derivative-state columns vanish. -/
theorem assembleA2_delta_delta (K K_star : ℕ)
    (Ag AgW Cg CgW : ℕ → ℕ → ℚ) (r j : ℕ) (hr : r < K) (hj : j < K) :
    assembleA K K_star 2 Ag AgW Cg CgW (K + K_star + r) (K + (K_star + j)) = 0 := by
  have h1 : ¬(K + K_star + r < K) := by omega
  have h2 : ¬(K + K_star + r < K + K_star) := by omega
  have h3 : K + K_star + r < 2 * K + K_star := by omega
  have h4 : ¬(K + (K_star + j) < K) := by omega
  have h5 : ¬(K + (K_star + j) < K + K_star) := by omega
  have h6 : K + (K_star + j) < 2 * K + K_star := by omega
  simp [assembleA, h1, h2, h3, h4, h5, h6]

/-- Helper: entries of the order-2 circulation-derivative block over
the delayed-circulation columns. -/
theorem assembleA2_delta_prev (K K_star : ℕ)
    (Ag AgW Cg CgW : ℕ → ℕ → ℚ) (r j : ℕ) (hr : r < K) (hj : j < K) :
    assembleA K K_star 2 Ag AgW Cg CgW (K + K_star + r) (K + (K_star + (K + j))) =
      (if j = r then 0.5 else 0) := by
  have h1 : ¬(K + K_star + r < K) := by omega
  have h2 : ¬(K + K_star + r < K + K_star) := by omega
  have h3 : K + K_star + r < 2 * K + K_star := by omega
  have h4 : ¬(K + (K_star + (K + j)) < K) := by omega
  have h5 : ¬(K + (K_star + (K + j)) < K + K_star) := by omega
  have h6 : ¬(K + (K_star + (K + j)) < 2 * K + K_star) := by omega
  have h7 : K + (K_star + (K + j)) < 3 * K + K_star := by omega
  have h8 : K + (K_star + (K + j)) - (2 * K + K_star) = j := by omega
  have h9 : K + K_star + r - (K + K_star) = r := by omega
  simp [assembleA, h1, h2, h3, h4, h5, h6, h7, h8, h9]

/-- Helper: entries of the order-2 delayed-circulation (identity)
block over the bound-circulation columns. -/
theorem assembleA2_prev_gamma (K K_star : ℕ)
    (Ag AgW Cg CgW : ℕ → ℕ → ℚ) (r j : ℕ) (hr : r < K) (hj : j < K) :
    assembleA K K_star 2 Ag AgW Cg CgW (2 * K + K_star + r) j =
      (if j = r then 1 else 0) := by
  have h1 : ¬(2 * K + K_star + r < K) := by omega
  have h2 : ¬(2 * K + K_star + r < K + K_star) := by omega
  have h3 : ¬(2 * K + K_star + r < 2 * K + K_star) := by omega
  have h4 : 2 * K + K_star + r < 3 * K + K_star := by omega
  have h5 : 2 * K + K_star + r - (2 * K + K_star) = r := by omega
  simp only [assembleA, if_neg h1, if_neg h2, if_neg h3, if_pos h4, h5]
  by_cases hjr : j = r
  · simp [hjr, hr]
  · simp [hjr]

/-- Helper: entries of the order-2 delayed-circulation block over all
later columns vanish. -/
theorem assembleA2_prev_rest (K K_star : ℕ)
    (Ag AgW Cg CgW : ℕ → ℕ → ℚ) (r j : ℕ) (hr : r < K) (hj : K ≤ j) :
    assembleA K K_star 2 Ag AgW Cg CgW (2 * K + K_star + r) j = 0 := by
  have h1 : ¬(2 * K + K_star + r < K) := by omega
  have h2 : ¬(2 * K + K_star + r < K + K_star) := by omega
  have h3 : ¬(2 * K + K_star + r < 2 * K + K_star) := by omega
  have h4 : 2 * K + K_star + r < 3 * K + K_star := by omega
  have h5 : ¬(j < K) := by omega
  simp [assembleA, h1, h2, h3, h4, h5]

/-- Helper: entries of the order-1 circulation-derivative block over
the bound-circulation columns. -/
theorem assembleA1_delta_gamma (K K_star : ℕ)
    (Ag AgW Cg CgW : ℕ → ℕ → ℚ) (r j : ℕ) (hr : r < K) (hj : j < K) :
    assembleA K K_star 1 Ag AgW Cg CgW (K + K_star + r) j =
      Ag r j - (if j = r then 1 else 0) := by
  have h1 : ¬(K + K_star + r < K) := by omega
  have h2 : ¬(K + K_star + r < K + K_star) := by omega
  have h3 : K + K_star + r < 2 * K + K_star := by omega
  simp [assembleA, h1, h2, h3, hj, Nat.add_sub_cancel_left]

/-- Helper: entries of the order-1 circulation-derivative block over
the wake-circulation columns. -/
theorem assembleA1_delta_wake (K K_star : ℕ)
    (Ag AgW Cg CgW : ℕ → ℕ → ℚ) (r j : ℕ) (hr : r < K) (hj : j < K_star) :
    assembleA K K_star 1 Ag AgW Cg CgW (K + K_star + r) (K + j) =
      AgW r j := by
  have h1 : ¬(K + K_star + r < K) := by omega
  have h2 : ¬(K + K_star + r < K + K_star) := by omega
  have h3 : K + K_star + r < 2 * K + K_star := by omega
  have h4 : ¬(K + j < K) := by omega
  have h5 : K + j < K + K_star := by omega
  simp [assembleA, h1, h2, h3, h4, h5, Nat.add_sub_cancel_left]

/-- Helper: entries of the order-1 circulation-derivative block over
the derivative-state columns vanish. -/
theorem assembleA1_delta_rest (K K_star : ℕ)
    (Ag AgW Cg CgW : ℕ → ℕ → ℚ) (r j : ℕ) (hr : r < K) (hj : K + K_star ≤ j) :
    assembleA K K_star 1 Ag AgW Cg CgW (K + K_star + r) j = 0 := by
  have h1 : ¬(K + K_star + r < K) := by omega
  have h2 : ¬(K + K_star + r < K + K_star) := by omega
  have h3 : K + K_star + r < 2 * K + K_star := by omega
  have h4 : ¬(j < K) := by omega
  have h5 : ¬(j < K + K_star) := by omega
  simp [assembleA, h1, h2, h3, h4, h5]

/-- Helper: closed form of a single surface contribution to the
wake-at-frequency operator: the entry is nonzero exactly when the row
falls in this surface wake block and the column is the matching
trailing-edge bound column, carrying `z` to the power `-(mm+1)` for
wake row `mm`. -/
theorem surfCwEntry_eq {F : Type} [Field F] (z : F) (s : Surf) (hM : 1 ≤ s.M)
    (K0 K0s i j : ℕ) :
    surfCwEntry z s K0 K0s i j =
      if K0s ≤ i ∧ K0 ≤ j ∧ i - K0s < s.Mstar * s.N ∧
          s.N * (s.M - 1) ≤ j - K0 ∧ j - K0 < s.N * s.M ∧
          j - K0 - s.N * (s.M - 1) = (i - K0s) % s.N then
        z ^ (-(((i - K0s) / s.N : ℕ) : ℤ) - 1)
      else 0 := by
  rcases Nat.eq_zero_or_pos s.N with hN | hN
  · simp [surfCwEntry, hN]
  obtain ⟨m1, hm1⟩ : ∃ m1, s.M = m1 + 1 := ⟨s.M - 1, by omega⟩
  have hdm : s.N * ((i - K0s) / s.N) + (i - K0s) % s.N = i - K0s :=
    Nat.div_add_mod _ _
  have hml : (i - K0s) % s.N < s.N := Nat.mod_lt _ hN
  have hMN : s.N * (s.M - 1) + s.N = s.N * s.M := by
    rw [hm1, Nat.mul_succ, Nat.add_sub_cancel]
  by_cases hc : K0s ≤ i ∧ K0 ≤ j ∧ i - K0s < s.Mstar * s.N ∧
      s.N * (s.M - 1) ≤ j - K0 ∧ j - K0 < s.N * s.M ∧
      j - K0 - s.N * (s.M - 1) = (i - K0s) % s.N
  · rw [if_pos hc]
    obtain ⟨hci, hcj, hlt, hte1, hte2, hte3⟩ := hc
    have hdiv_lt : (i - K0s) / s.N < s.Mstar := by
      rw [Nat.mul_comm] at hlt
      exact Nat.div_lt_of_lt_mul hlt
    simp only [surfCwEntry]
    refine (Finset.sum_eq_single ((i - K0s) / s.N) ?_ ?_).trans ?_
    · intro mm hmm hmmne
      refine Finset.sum_eq_zero fun t ht => ?_
      rw [if_neg]
      rintro ⟨h1, _⟩
      apply hmmne
      have ht' := Finset.mem_range.mp ht
      have hi0 : i - K0s = mm * s.N + t := by omega
      have hde : (mm * s.N + t) / s.N = mm := by
        rw [Nat.mul_comm mm s.N, Nat.mul_add_div hN, Nat.div_eq_of_lt ht',
          Nat.add_zero]
      rw [hi0, hde]
    · intro habs
      exact absurd (Finset.mem_range.mpr hdiv_lt) habs
    · refine (Finset.sum_eq_single ((i - K0s) % s.N) ?_ ?_).trans ?_
      · intro t ht htne
        rw [if_neg]
        rintro ⟨h1, _⟩
        apply htne
        have hcm : (i - K0s) / s.N * s.N = s.N * ((i - K0s) / s.N) :=
          Nat.mul_comm _ _
        omega
      · intro habs
        exact absurd (Finset.mem_range.mpr hml) habs
      · rw [if_pos]
        refine ⟨?_, ?_⟩
        · have hcm : (i - K0s) / s.N * s.N = s.N * ((i - K0s) / s.N) :=
            Nat.mul_comm _ _
          omega
        · omega
  · rw [if_neg hc]
    refine Finset.sum_eq_zero fun mm hmm => Finset.sum_eq_zero fun t ht => ?_
    rw [if_neg]
    rintro ⟨h1, h2⟩
    apply hc
    have hmm' := Finset.mem_range.mp hmm
    have ht' := Finset.mem_range.mp ht
    have hi0 : i - K0s = mm * s.N + t := by omega
    have hde : (mm * s.N + t) / s.N = mm := by
      rw [Nat.mul_comm mm s.N, Nat.mul_add_div hN, Nat.div_eq_of_lt ht',
        Nat.add_zero]
    have hme : (mm * s.N + t) % s.N = t := by
      rw [Nat.mul_comm mm s.N, Nat.mul_add_mod, Nat.mod_eq_of_lt ht']
    have hlt : i - K0s < s.Mstar * s.N := by
      rw [hi0]
      calc mm * s.N + t < (mm + 1) * s.N := by rw [Nat.add_mul, Nat.one_mul]; omega
        _ ≤ s.Mstar * s.N := Nat.mul_le_mul_right _ (by omega)
    refine ⟨by omega, by omega, hlt, by omega, by omega, ?_⟩
    rw [hi0, hme]
    omega

/-- Helper: the assembled wake-at-frequency matrix with running
offsets agrees with the claim-side description applied to the
offset-relative indices. -/
theorem get_Cw_cpx_entry_eq {F : Type} [Field F] (z : F) :
    ∀ (surfs : List Surf), (∀ s ∈ surfs, 1 ≤ s.M) → ∀ K0 K0s i j : ℕ,
      get_Cw_cpx_entry z surfs K0 K0s i j =
        if K0s ≤ i ∧ K0 ≤ j then cwClaimEntry z surfs (i - K0s) (j - K0)
        else 0
  | [], _, K0, K0s, i, j => by
    simp [get_Cw_cpx_entry, cwClaimEntry]
  | s :: rest, hM, K0, K0s, i, j => by
    have hMs : 1 ≤ s.M := hM s (List.mem_cons_self s rest)
    have hMr : ∀ t ∈ rest, 1 ≤ t.M := fun t ht => hM t (List.mem_cons_of_mem s ht)
    simp only [get_Cw_cpx_entry]
    rw [surfCwEntry_eq z s hMs K0 K0s i j,
      get_Cw_cpx_entry_eq z rest hMr (K0 + s.M * s.N) (K0s + s.Mstar * s.N) i j]
    by_cases hA : K0s ≤ i
    · by_cases hB : K0 ≤ j
      · rw [if_pos (show K0s ≤ i ∧ K0 ≤ j from ⟨hA, hB⟩)]
        by_cases hC : i - K0s < s.Mstar * s.N
        · rw [if_neg (show ¬(K0s + s.Mstar * s.N ≤ i ∧ K0 + s.M * s.N ≤ j) by
            rintro ⟨h, _⟩; omega), add_zero]
          have hclaim : cwClaimEntry z (s :: rest) (i - K0s) (j - K0) =
              if s.N * (s.M - 1) ≤ j - K0 ∧ j - K0 < s.N * s.M ∧
                  j - K0 - s.N * (s.M - 1) = (i - K0s) % s.N then
                z ^ (-(((i - K0s) / s.N : ℕ) : ℤ) - 1)
              else 0 := by
            simp only [cwClaimEntry, if_pos hC]
          rw [hclaim]
          by_cases hD : s.N * (s.M - 1) ≤ j - K0 ∧ j - K0 < s.N * s.M ∧
              j - K0 - s.N * (s.M - 1) = (i - K0s) % s.N
          · rw [if_pos hD,
              if_pos (show K0s ≤ i ∧ K0 ≤ j ∧ i - K0s < s.Mstar * s.N ∧
                s.N * (s.M - 1) ≤ j - K0 ∧ j - K0 < s.N * s.M ∧
                j - K0 - s.N * (s.M - 1) = (i - K0s) % s.N from
                  ⟨hA, hB, hC, hD.1, hD.2.1, hD.2.2⟩)]
          · rw [if_neg hD,
              if_neg (show ¬(K0s ≤ i ∧ K0 ≤ j ∧ i - K0s < s.Mstar * s.N ∧
                s.N * (s.M - 1) ≤ j - K0 ∧ j - K0 < s.N * s.M ∧
                j - K0 - s.N * (s.M - 1) = (i - K0s) % s.N) by
                  rintro ⟨_, _, _, h4, h5, h6⟩; exact hD ⟨h4, h5, h6⟩)]
        · rw [if_neg (show ¬(K0s ≤ i ∧ K0 ≤ j ∧ i - K0s < s.Mstar * s.N ∧
              s.N * (s.M - 1) ≤ j - K0 ∧ j - K0 < s.N * s.M ∧
              j - K0 - s.N * (s.M - 1) = (i - K0s) % s.N) by
                rintro ⟨_, _, h3, _⟩; exact hC h3), zero_add]
          have hclaim : cwClaimEntry z (s :: rest) (i - K0s) (j - K0) =
              if j - K0 < s.M * s.N then 0
              else cwClaimEntry z rest (i - K0s - s.Mstar * s.N)
                (j - K0 - s.M * s.N) := by
            simp only [cwClaimEntry, if_neg hC]
          rw [hclaim]
          by_cases hE : j - K0 < s.M * s.N
          · rw [if_pos hE,
              if_neg (show ¬(K0s + s.Mstar * s.N ≤ i ∧ K0 + s.M * s.N ≤ j) by
                rintro ⟨_, h⟩; omega)]
          · rw [if_neg hE,
              if_pos (show K0s + s.Mstar * s.N ≤ i ∧ K0 + s.M * s.N ≤ j from
                ⟨by omega, by omega⟩)]
            have e1 : i - (K0s + s.Mstar * s.N) = i - K0s - s.Mstar * s.N := by
              omega
            have e2 : j - (K0 + s.M * s.N) = j - K0 - s.M * s.N := by omega
            rw [e1, e2]
      · rw [if_neg (show ¬(K0s ≤ i ∧ K0 ≤ j ∧ i - K0s < s.Mstar * s.N ∧
            s.N * (s.M - 1) ≤ j - K0 ∧ j - K0 < s.N * s.M ∧
            j - K0 - s.N * (s.M - 1) = (i - K0s) % s.N) by
              rintro ⟨_, h, _⟩; exact hB h),
          if_neg (show ¬(K0s + s.Mstar * s.N ≤ i ∧ K0 + s.M * s.N ≤ j) by
            rintro ⟨_, h⟩; omega),
          if_neg (show ¬(K0s ≤ i ∧ K0 ≤ j) by rintro ⟨_, h⟩; exact hB h),
          add_zero]
    · rw [if_neg (show ¬(K0s ≤ i ∧ K0 ≤ j ∧ i - K0s < s.Mstar * s.N ∧
          s.N * (s.M - 1) ≤ j - K0 ∧ j - K0 < s.N * s.M ∧
          j - K0 - s.N * (s.M - 1) = (i - K0s) % s.N) by
            rintro ⟨h, _⟩; exact hA h),
        if_neg (show ¬(K0s + s.Mstar * s.N ≤ i ∧ K0 + s.M * s.N ≤ j) by
          rintro ⟨h, _⟩; omega),
        if_neg (show ¬(K0s ≤ i ∧ K0 ≤ j) by rintro ⟨h, _⟩; exact hA h),
        add_zero]

/-- Helper: with a nonzero frequency point, the claim-side entry is
nonzero exactly at the positions the claim designates. -/
theorem cwClaimEntry_ne_zero_iff {F : Type} [Field F] (z : F) (hz : z ≠ 0) :
    ∀ (surfs : List Surf) (i j : ℕ),
      (cwClaimEntry z surfs i j ≠ 0 ↔ cwClaimPos surfs i j = true)
  | [], i, j => by simp [cwClaimEntry, cwClaimPos]
  | s :: rest, i, j => by
    by_cases h1 : i < s.Mstar * s.N
    · by_cases h2 : s.N * (s.M - 1) ≤ j ∧ j < s.N * s.M ∧
          j - s.N * (s.M - 1) = i % s.N
      · simp [cwClaimEntry, cwClaimPos, h1, h2, zpow_ne_zero _ hz]
      · simp [cwClaimEntry, cwClaimPos, h1, h2]
    · by_cases h3 : j < s.M * s.N
      · simp [cwClaimEntry, cwClaimPos, h1, h3]
      · simp only [cwClaimEntry, cwClaimPos, if_neg h1, if_neg h3]
        exact cwClaimEntry_ne_zero_iff z hz rest _ _

/-- C5: for a nonzero frequency point `z`, the operator built by
`get_Cw_cpx` coincides entrywise with the claim description: its only
nonzero entries place, for each surface and each chordwise wake row
`mm`, the value `z` to the power `-(mm+1)` in the columns of that
trailing-edge bound panels of that same surface (at the matching span
position),
and the entries are nonzero exactly at those positions. -/
theorem wake_frequency_operator {F : Type} [Field F] (z : F) (hz : z ≠ 0)
    (surfs : List Surf) (hM : ∀ s ∈ surfs, 1 ≤ s.M) :
    (∀ i j, get_Cw_cpx_entry z surfs 0 0 i j = cwClaimEntry z surfs i j) ∧
    (∀ i j, get_Cw_cpx_entry z surfs 0 0 i j ≠ 0 ↔
      cwClaimPos surfs i j = true) := by
  have h1 : ∀ i j, get_Cw_cpx_entry z surfs 0 0 i j = cwClaimEntry z surfs i j := by
    intro i j
    rw [get_Cw_cpx_entry_eq z surfs hM 0 0 i j]
    simp
  refine ⟨h1, fun i j => ?_⟩
  rw [h1]
  exact cwClaimEntry_ne_zero_iff z hz surfs i j

/-- Witness for C5 at a two-chord, two-span surface with three wake
rows and the frequency point `z = 2`. -/
theorem wake_frequency_operator_witness :
    (∀ i j, get_Cw_cpx_entry (2 : ℚ) [{ M := 2, N := 2, Mstar := 3 }] 0 0 i j =
      cwClaimEntry (2 : ℚ) [{ M := 2, N := 2, Mstar := 3 }] i j) ∧
    (∀ i j, get_Cw_cpx_entry (2 : ℚ) [{ M := 2, N := 2, Mstar := 3 }] 0 0 i j ≠ 0 ↔
      cwClaimPos [{ M := 2, N := 2, Mstar := 3 }] i j = true) :=
  wake_frequency_operator (2 : ℚ) (by norm_num) [{ M := 2, N := 2, Mstar := 3 }]
    (by intro s hs; rw [List.mem_singleton] at hs; subst hs; decide)

/-- C4 (amended): acting on a state vector `x = (gamma, gamma_w,
delta, gamma_prev)`, the order-2 circulation-derivative rows of the
assembled `A` compute `1.5 gamma_new - 2 gamma_n + 0.5 gamma_prev`
(coefficients `1.5, -2, 0.5` on the `n+1, n, n-1` contributions, where
`gamma_new` is the bound circulation the top block produces from the
current state), the appended delayed-circulation rows store the
current bound circulation through an identity map, and with order 1
the derivative rows compute the simple backward difference
`gamma_new - gamma_n` on the shorter `2 K + K_star` state. -/
theorem bdf2_coefficients (K K_star : ℕ) (Ag AgW Cg CgW : ℕ → ℕ → ℚ)
    (x : ℕ → ℚ) (r : ℕ) (hr : r < K) :
    mulNatVec (assembleA K K_star 2 Ag AgW Cg CgW) (3 * K + K_star) x
        (K + K_star + r) =
      1.5 * ((∑ j in Finset.range K, Ag r j * x j) +
        ∑ j in Finset.range K_star, AgW r j * x (K + j)) +
      (-2) * x r + 0.5 * x (2 * K + K_star + r) ∧
    mulNatVec (assembleA K K_star 2 Ag AgW Cg CgW) (3 * K + K_star) x
        (2 * K + K_star + r) = x r ∧
    mulNatVec (assembleA K K_star 1 Ag AgW Cg CgW) (2 * K + K_star) x
        (K + K_star + r) =
      ((∑ j in Finset.range K, Ag r j * x j) +
        ∑ j in Finset.range K_star, AgW r j * x (K + j)) - x r := by
  have hsplit3 : 3 * K + K_star = K + (K_star + (K + K)) := by ring
  have hsplit2 : 2 * K + K_star = K + (K_star + K) := by ring
  refine ⟨?_, ?_, ?_⟩
  · show (∑ j in Finset.range (3 * K + K_star),
        assembleA K K_star 2 Ag AgW Cg CgW (K + K_star + r) j * x j) = _
    rw [hsplit3, Finset.sum_range_add, Finset.sum_range_add, Finset.sum_range_add]
    have s1 : (∑ j in Finset.range K,
        assembleA K K_star 2 Ag AgW Cg CgW (K + K_star + r) j * x j) =
        1.5 * (∑ j in Finset.range K, Ag r j * x j) + (-2) * x r := by
      have : ∀ j ∈ Finset.range K,
          assembleA K K_star 2 Ag AgW Cg CgW (K + K_star + r) j * x j =
            1.5 * (Ag r j * x j) + (if j = r then (-2) * x j else 0) := by
        intro j hj
        rw [assembleA2_delta_gamma K K_star Ag AgW Cg CgW r j hr
          (Finset.mem_range.mp hj)]
        by_cases hjr : j = r <;> simp [hjr] <;> ring
      rw [Finset.sum_congr rfl this, Finset.sum_add_distrib, ← Finset.mul_sum,
        Finset.sum_ite_eq' (Finset.range K) r (fun j => (-2) * x j),
        if_pos (Finset.mem_range.mpr hr)]
    have s2 : (∑ j in Finset.range K_star,
        assembleA K K_star 2 Ag AgW Cg CgW (K + K_star + r) (K + j) * x (K + j)) =
        1.5 * ∑ j in Finset.range K_star, AgW r j * x (K + j) := by
      rw [Finset.mul_sum]
      refine Finset.sum_congr rfl fun j hj => ?_
      rw [assembleA2_delta_wake K K_star Ag AgW Cg CgW r j hr
        (Finset.mem_range.mp hj)]
      ring
    have s3 : (∑ j in Finset.range K,
        assembleA K K_star 2 Ag AgW Cg CgW (K + K_star + r)
          (K + (K_star + j)) * x (K + (K_star + j))) = 0 := by
      refine Finset.sum_eq_zero fun j hj => ?_
      rw [assembleA2_delta_delta K K_star Ag AgW Cg CgW r j hr
        (Finset.mem_range.mp hj)]
      exact zero_mul _
    have s4 : (∑ j in Finset.range K,
        assembleA K K_star 2 Ag AgW Cg CgW (K + K_star + r)
          (K + (K_star + (K + j))) * x (K + (K_star + (K + j)))) =
        0.5 * x (2 * K + K_star + r) := by
      have : ∀ j ∈ Finset.range K,
          assembleA K K_star 2 Ag AgW Cg CgW (K + K_star + r)
            (K + (K_star + (K + j))) * x (K + (K_star + (K + j))) =
            (if j = r then 0.5 * x (K + (K_star + (K + j))) else 0) := by
        intro j hj
        rw [assembleA2_delta_prev K K_star Ag AgW Cg CgW r j hr
          (Finset.mem_range.mp hj)]
        by_cases hjr : j = r <;> simp [hjr]
      rw [Finset.sum_congr rfl this,
        Finset.sum_ite_eq' (Finset.range K) r
          (fun j => 0.5 * x (K + (K_star + (K + j)))),
        if_pos (Finset.mem_range.mpr hr)]
      have harg : K + (K_star + (K + r)) = 2 * K + K_star + r := by ring
      rw [harg]
    rw [s1, s2, s3, s4]
    ring
  · show (∑ j in Finset.range (3 * K + K_star),
        assembleA K K_star 2 Ag AgW Cg CgW (2 * K + K_star + r) j * x j) = _
    rw [hsplit3, Finset.sum_range_add, Finset.sum_range_add, Finset.sum_range_add]
    have s1 : (∑ j in Finset.range K,
        assembleA K K_star 2 Ag AgW Cg CgW (2 * K + K_star + r) j * x j) = x r := by
      have : ∀ j ∈ Finset.range K,
          assembleA K K_star 2 Ag AgW Cg CgW (2 * K + K_star + r) j * x j =
            (if j = r then x j else 0) := by
        intro j hj
        rw [assembleA2_prev_gamma K K_star Ag AgW Cg CgW r j hr
          (Finset.mem_range.mp hj)]
        by_cases hjr : j = r <;> simp [hjr]
      rw [Finset.sum_congr rfl this,
        Finset.sum_ite_eq' (Finset.range K) r (fun j => x j),
        if_pos (Finset.mem_range.mpr hr)]
    have s2 : (∑ j in Finset.range K_star,
        assembleA K K_star 2 Ag AgW Cg CgW (2 * K + K_star + r) (K + j) *
          x (K + j)) = 0 :=
      Finset.sum_eq_zero fun j _ => by
        rw [assembleA2_prev_rest K K_star Ag AgW Cg CgW r (K + j) hr
          (Nat.le_add_right K j)]
        exact zero_mul _
    have s3 : (∑ j in Finset.range K,
        assembleA K K_star 2 Ag AgW Cg CgW (2 * K + K_star + r)
          (K + (K_star + j)) * x (K + (K_star + j))) = 0 :=
      Finset.sum_eq_zero fun j _ => by
        rw [assembleA2_prev_rest K K_star Ag AgW Cg CgW r (K + (K_star + j)) hr
          (Nat.le_add_right K (K_star + j))]
        exact zero_mul _
    have s4 : (∑ j in Finset.range K,
        assembleA K K_star 2 Ag AgW Cg CgW (2 * K + K_star + r)
          (K + (K_star + (K + j))) * x (K + (K_star + (K + j)))) = 0 :=
      Finset.sum_eq_zero fun j _ => by
        rw [assembleA2_prev_rest K K_star Ag AgW Cg CgW r
          (K + (K_star + (K + j))) hr (Nat.le_add_right K (K_star + (K + j)))]
        exact zero_mul _
    rw [s1, s2, s3, s4]
    ring
  · show (∑ j in Finset.range (2 * K + K_star),
        assembleA K K_star 1 Ag AgW Cg CgW (K + K_star + r) j * x j) = _
    rw [hsplit2, Finset.sum_range_add, Finset.sum_range_add]
    have s1 : (∑ j in Finset.range K,
        assembleA K K_star 1 Ag AgW Cg CgW (K + K_star + r) j * x j) =
        (∑ j in Finset.range K, Ag r j * x j) - x r := by
      have : ∀ j ∈ Finset.range K,
          assembleA K K_star 1 Ag AgW Cg CgW (K + K_star + r) j * x j =
            Ag r j * x j - (if j = r then x j else 0) := by
        intro j hj
        rw [assembleA1_delta_gamma K K_star Ag AgW Cg CgW r j hr
          (Finset.mem_range.mp hj)]
        by_cases hjr : j = r <;> simp [hjr] <;> ring
      rw [Finset.sum_congr rfl this, Finset.sum_sub_distrib,
        Finset.sum_ite_eq' (Finset.range K) r (fun j => x j),
        if_pos (Finset.mem_range.mpr hr)]
    have s2 : (∑ j in Finset.range K_star,
        assembleA K K_star 1 Ag AgW Cg CgW (K + K_star + r) (K + j) *
          x (K + j)) = ∑ j in Finset.range K_star, AgW r j * x (K + j) :=
      Finset.sum_congr rfl fun j hj => by
        rw [assembleA1_delta_wake K K_star Ag AgW Cg CgW r j hr
          (Finset.mem_range.mp hj)]
    have s3 : (∑ j in Finset.range K,
        assembleA K K_star 1 Ag AgW Cg CgW (K + K_star + r)
          (K + (K_star + j)) * x (K + (K_star + j))) = 0 :=
      Finset.sum_eq_zero fun j _ => by
        rw [assembleA1_delta_rest K K_star Ag AgW Cg CgW r (K + (K_star + j)) hr
          (by omega)]
        exact zero_mul _
    rw [s1, s2, s3]
    ring

/-- Counterexample to C4 as stated: with the claimed coefficient
assignment (`-2` on the `n+1` contribution, `1.5` on the `n`
contribution), the derivative-row diagonal entry over the
bound-circulation columns of a `K = K_star = 1` model with vanishing
coupling blocks would be `-2 * 0 + 1.5 = 1.5`; the assembled matrix
actually holds `1.5 * 0 - 2 = -2` there. -/
theorem bdf2_coefficients_claim_false :
    assembleA 1 1 2 (fun _ _ => 0) (fun _ _ => 0) (fun _ _ => 0)
        (fun _ _ => 0) 2 0 = -2 ∧
      assembleA 1 1 2 (fun _ _ => 0) (fun _ _ => 0) (fun _ _ => 0)
        (fun _ _ => 0) 2 0 ≠ -2 * 0 + 1.5 := by
  constructor
  · norm_num [assembleA]
  · norm_num [assembleA]

/-- Witness for C4 at a concrete one-panel geometry with all-ones
blocks and the state vector of successive integers. -/
theorem bdf2_coefficients_witness :
    mulNatVec (assembleA 1 1 2 (fun _ _ => 1) (fun _ _ => 1) (fun _ _ => 1)
        (fun _ _ => 1)) (3 * 1 + 1) (fun i => (i : ℚ) + 1) (1 + 1 + 0) =
      1.5 * ((∑ j in Finset.range 1, (fun (_ _ : ℕ) => (1 : ℚ)) 0 j *
          ((j : ℚ) + 1)) +
        ∑ j in Finset.range 1, (fun (_ _ : ℕ) => (1 : ℚ)) 0 j *
          (((1 + j : ℕ) : ℚ) + 1)) +
      (-2) * ((0 : ℚ) + 1) + 0.5 * (((2 * 1 + 1 + 0 : ℕ) : ℚ) + 1) ∧
    mulNatVec (assembleA 1 1 2 (fun _ _ => 1) (fun _ _ => 1) (fun _ _ => 1)
        (fun _ _ => 1)) (3 * 1 + 1) (fun i => (i : ℚ) + 1) (2 * 1 + 1 + 0) =
      (0 : ℚ) + 1 ∧
    mulNatVec (assembleA 1 1 1 (fun _ _ => 1) (fun _ _ => 1) (fun _ _ => 1)
        (fun _ _ => 1)) (2 * 1 + 1) (fun i => (i : ℚ) + 1) (1 + 1 + 0) =
      ((∑ j in Finset.range 1, (fun (_ _ : ℕ) => (1 : ℚ)) 0 j *
          ((j : ℚ) + 1)) +
        ∑ j in Finset.range 1, (fun (_ _ : ℕ) => (1 : ℚ)) 0 j *
          (((1 + j : ℕ) : ℚ) + 1)) - ((0 : ℚ) + 1) :=
  bdf2_coefficients 1 1 (fun _ _ => 1) (fun _ _ => 1) (fun _ _ => 1)
    (fun _ _ => 1) (fun i => (i : ℚ) + 1) 0 (by norm_num)

/-- Helper: mapping an always-successful effect over a list succeeds
with the pointwise results. -/
theorem mapM_ok_of_fn {α β : Type} (g : α → β) :
    ∀ l : List α,
      l.mapM (fun a => (Except.ok (g a) : Except BalfreqError β)) =
        Except.ok (l.map g)
  | [] => rfl
  | a :: l => by
    simp only [List.mapM_cons, mapM_ok_of_fn g l, List.map_cons]
    rfl

/-- C9: on a model assembled with `integr_order = 1` and
`remove_predictor = False`, any `balfreq` call with supplied weights
and a nonempty frequency grid fails with the unbound-name error, since
the first-order controllability branch references the never-assigned
coefficient `bp0`; under the same inputs an `integr_order = 2` model
completes and returns the balanced results. -/
theorem balfreq_order1_unbound {ns nu ny p q r : ℕ} (m : Dynamic ns nu ny)
    (kv_low kv_high wl wh : List ℚ) (zOf : ℚ → ℚ)
    (Zc : Matrix (Fin ns) (Fin q) ℚ) (Zo : Matrix (Fin ns) (Fin p) ℚ)
    (svd : SVDFactors p q r)
    (hrp : m.remove_predictor = false) (ho1 : m.integr_order = 1)
    (hk : kv_low ++ kv_high ≠ []) :
    balfreq m kv_low kv_high (some wl) (some wh) zOf Zc Zo svd =
        Except.error BalfreqError.unboundName ∧
      ∀ m2 : Dynamic ns nu ny, m2.remove_predictor = false →
        m2.integr_order = 2 →
        balfreq m2 kv_low kv_high (some wl) (some wh) zOf Zc Zo svd =
          Except.ok (balfreqFinal m2.SS Zc Zo svd, m2) := by
  constructor
  · obtain ⟨a, l, hl⟩ : ∃ a l, kv_low ++ kv_high = a :: l := by
      cases h : kv_low ++ kv_high with
      | nil => exact absurd h hk
      | cons a l => exact ⟨a, l, rfl⟩
    simp [balfreq, hrp, hl, ho1, dfactCtrl, balfreqCoeffs, List.mapM_cons,
      List.mapM.loop, Except.bind, Except.map, Bind.bind, Functor.map]
  · intro m2 h1 h2
    have hfn : ∀ kd : ℚ, dfactCtrl m2.integr_order (zOf kd) =
        Except.ok (1.5 + (-2) / zOf kd + 0.5 / (zOf kd) ^ 2) := by
      intro kd
      simp [dfactCtrl, balfreqCoeffs, h2]
    simp only [balfreq, h1, Option.isNone_some, Bool.or_self, Bool.false_eq_true,
      if_false, hfn, mapM_ok_of_fn]
    rfl

/-- Witness for C9 at a concrete first-order model and grid. -/
theorem balfreq_order1_unbound_witness :
    balfreq sampleDynO1 [1] [] (some [1]) (some [1]) (fun k => k)
        (1 : Matrix (Fin 1) (Fin 1) ℚ) (1 : Matrix (Fin 1) (Fin 1) ℚ) sampleSVD =
        Except.error BalfreqError.unboundName ∧
      ∀ m2 : Dynamic 1 (9 * 1) (3 * 1), m2.remove_predictor = false →
        m2.integr_order = 2 →
        balfreq m2 [1] [] (some [1]) (some [1]) (fun k => k)
          (1 : Matrix (Fin 1) (Fin 1) ℚ) (1 : Matrix (Fin 1) (Fin 1) ℚ) sampleSVD =
          Except.ok (balfreqFinal m2.SS 1 1 sampleSVD, m2) :=
  balfreq_order1_unbound sampleDynO1 [1] [] [1] [1] (fun k => k) 1 1 sampleSVD
    rfl rfl (by simp)

/-- C6: the final stage of `balfreq` produces the reduced model as
`A_r = Ti A T`, `B_r = Ti B`, `C_r = C T` with `D` and `dt` passed
through unchanged, returns in `gv` the whole singular-value vector of
`Zo^T Zc` (its length is `min p q`, the full SVD size, so no implicit
truncation is performed), and under the SVD properties of the external
factorisation `Ti` is a left inverse of `T`. -/
theorem balfreq_reduction {ns nu ny p q r : ℕ} (ss : SS ns nu ny)
    (Zc : Matrix (Fin ns) (Fin q) ℚ) (Zo : Matrix (Fin ns) (Fin p) ℚ)
    (svd : SVDFactors p q r)
    (hr : r = min p q)
    (hfact : svd.U * Matrix.diagonal svd.s * svd.Vh = Zo.transpose * Zc)
    (hU : svd.U.transpose * svd.U = 1)
    (hV : svd.Vh * svd.Vh.transpose = 1)
    (hs : ∀ l, svd.s l * (svd.sinv l * svd.sinv l) = 1) :
    (balfreqFinal ss Zc Zo svd).SSb.A =
        (balfreqFinal ss Zc Zo svd).Ti *
          (ss.A * (balfreqFinal ss Zc Zo svd).T) ∧
    (balfreqFinal ss Zc Zo svd).SSb.B = (balfreqFinal ss Zc Zo svd).Ti * ss.B ∧
    (balfreqFinal ss Zc Zo svd).SSb.C = ss.C * (balfreqFinal ss Zc Zo svd).T ∧
    (balfreqFinal ss Zc Zo svd).SSb.D = ss.D ∧
    (balfreqFinal ss Zc Zo svd).SSb.dt = ss.dt ∧
    (balfreqFinal ss Zc Zo svd).gv = svd.s ∧
    (balfreqFinal ss Zc Zo svd).Ti * (balfreqFinal ss Zc Zo svd).T = 1 := by
  refine ⟨rfl, rfl, rfl, rfl, rfl, rfl, ?_⟩
  show (svd.U * Matrix.diagonal svd.sinv).transpose * Zo.transpose *
      (Zc * (svd.Vh.transpose * Matrix.diagonal svd.sinv)) = 1
  rw [Matrix.transpose_mul, Matrix.diagonal_transpose]
  rw [Matrix.mul_assoc (Matrix.diagonal svd.sinv * svd.U.transpose),
    ← Matrix.mul_assoc Zo.transpose, ← hfact]
  have e1 : svd.U * Matrix.diagonal svd.s * svd.Vh *
      (svd.Vh.transpose * Matrix.diagonal svd.sinv) =
      svd.U * (Matrix.diagonal svd.s *
        ((svd.Vh * svd.Vh.transpose) * Matrix.diagonal svd.sinv)) := by
    rw [Matrix.mul_assoc, Matrix.mul_assoc, ← Matrix.mul_assoc svd.Vh]
  rw [e1, hV, Matrix.one_mul]
  have e2 : Matrix.diagonal svd.sinv * svd.U.transpose *
      (svd.U * (Matrix.diagonal svd.s * Matrix.diagonal svd.sinv)) =
      Matrix.diagonal svd.sinv * ((svd.U.transpose * svd.U) *
        (Matrix.diagonal svd.s * Matrix.diagonal svd.sinv)) := by
    rw [Matrix.mul_assoc, ← Matrix.mul_assoc svd.U.transpose]
  rw [e2, hU, Matrix.one_mul, Matrix.diagonal_mul_diagonal,
    Matrix.diagonal_mul_diagonal]
  have e3 : (fun l => svd.sinv l * (svd.s l * svd.sinv l)) =
      fun _ : Fin r => (1 : ℚ) := funext fun l => by
    rw [← hs l]; ring
  rw [e3]
  exact Matrix.diagonal_one

/-- Witness for C6 at the trivial one-dimensional factorisation. -/
theorem balfreq_reduction_witness :
    (balfreqFinal sampleSS1 (1 : Matrix (Fin 1) (Fin 1) ℚ)
        (1 : Matrix (Fin 1) (Fin 1) ℚ) sampleSVD).SSb.A =
        (balfreqFinal sampleSS1 1 1 sampleSVD).Ti *
          (sampleSS1.A * (balfreqFinal sampleSS1 1 1 sampleSVD).T) ∧
    (balfreqFinal sampleSS1 1 1 sampleSVD).SSb.B =
        (balfreqFinal sampleSS1 1 1 sampleSVD).Ti * sampleSS1.B ∧
    (balfreqFinal sampleSS1 1 1 sampleSVD).SSb.C =
        sampleSS1.C * (balfreqFinal sampleSS1 1 1 sampleSVD).T ∧
    (balfreqFinal sampleSS1 1 1 sampleSVD).SSb.D = sampleSS1.D ∧
    (balfreqFinal sampleSS1 1 1 sampleSVD).SSb.dt = sampleSS1.dt ∧
    (balfreqFinal sampleSS1 1 1 sampleSVD).gv = sampleSVD.s ∧
    (balfreqFinal sampleSS1 1 1 sampleSVD).Ti *
        (balfreqFinal sampleSS1 1 1 sampleSVD).T = 1 :=
  balfreq_reduction sampleSS1 1 1 sampleSVD rfl
    (by simp [sampleSVD, Matrix.diagonal_one])
    (by simp [sampleSVD]) (by simp [sampleSVD])
    (fun l => by simp [sampleSVD])

/-- Witness for C7 at a concrete predictor-removed model. -/
theorem balfreq_predictor_guard_witness :
    balfreq sampleDynPred [1] [2] (some [1]) (some [1]) (fun k => k)
        (1 : Matrix (Fin 1) (Fin 1) ℚ) (1 : Matrix (Fin 1) (Fin 1) ℚ) sampleSVD =
        Except.error BalfreqError.removePredictor ∧
      balfreqModelAfter sampleDynPred [1] [2] (some [1]) (some [1]) (fun k => k)
        (1 : Matrix (Fin 1) (Fin 1) ℚ) (1 : Matrix (Fin 1) (Fin 1) ℚ) sampleSVD =
        sampleDynPred :=
  balfreq_predictor_guard sampleDynPred [1] [2] [1] [1] (fun k => k) 1 1 sampleSVD rfl

end linuvlm
